import Mathlib

/-!
# Verification of the `watchpick` selection/derivation pipeline

This file gives a shallow embedding, in Lean 4, of the core logic of
`watchpick.py`: the fzf-result extraction, the two-strategy selection
dispatch, the recursive file enumeration with directory pruning, the
mtime ranking and query filtering, the numbered-list fallback picker,
the baseline-path derivation, the watch argument-vector builder, and
the shell join/split round trip.  Each definition is translated
directly from the corresponding Python function; machine strings are
modelled as Lean `String`/`List Char` (the ASCII fragment where Python
`casefold`/Unicode subtleties would otherwise intrude), integers as
`Int`/`Nat`, and fallible operations as `Option`.
-/

namespace Watchpick

/-! ## Character constants and small Python string helpers -/

/-- The single-quote character. -/
def squoteChar : Char := Char.ofNat 39

/-- The double-quote character. -/
def dquoteChar : Char := Char.ofNat 34

/-- The backslash character. -/
def bslashChar : Char := Char.ofNat 92

/-- Python `str.strip()` whitespace characters (space, tab, newline,
carriage return, vertical tab, form feed). -/
def pyWhitespace (c : Char) : Bool :=
  c == ' ' || c == '\t' || c == '\n' || c == '\r' ||
  c == Char.ofNat 11 || c == Char.ofNat 12

/-- Python `str.strip()`: remove leading and trailing whitespace. -/
def pyStrip (s : String) : String :=
  String.mk (((s.data.dropWhile pyWhitespace).reverse.dropWhile pyWhitespace).reverse)

/-- Python `s.rstrip("\n")`: remove all trailing newline characters. -/
def rstripNewlines (s : String) : String :=
  String.mk ((s.data.reverse.dropWhile (fun c => c == '\n')).reverse)

/-! ## fzf selection extraction (`_pick_with_fzf`, watchpick.py lines 62–102)

The Python function runs fzf, then extracts a selection from the captured
standard output and return code:

```
if proc.returncode != 0:
    return None
selected = proc.stdout.decode("utf-8").rstrip("\n")
if not selected:
    return None
if "\t" in selected:
    _, path_str = selected.split("\t", 1)
else:
    path_str = selected
return Path(path_str)
```
-/

/-- Split a character list at the first tab, if any: models Python
`s.split("\t", 1)` combined with the `"\t" in s` test. -/
def splitOnceTab : List Char → Option (List Char × List Char)
  | [] => none
  | c :: cs =>
    if c = '\t' then some ([], cs)
    else
      match splitOnceTab cs with
      | some (a, b) => some (c :: a, b)
      | none => none

/-- The selection-extraction tail of `_pick_with_fzf`: given the text fzf
emitted on stdout and its return code, produce the selected path.  This is
the logic of watchpick.py lines 90–102, including the `returncode != 0`
early return on line 90–91. -/
def resolve_fzf_selection (stdout_text : String) (returncode : Int) : Option String :=
  if returncode ≠ 0 then none
  else
    let selected := rstripNewlines stdout_text
    if selected = "" then none
    else
      match splitOnceTab selected.data with
      | some (_, path_str) => some (String.mk path_str)
      | none => some selected

/-- `_pick_with_fzf` as a whole: if the fzf executable cannot be located
(`shutil.which("fzf")` is falsy, lines 63–65) the function returns `None`
without running anything; otherwise the result is extracted from the
process output as above. -/
def pick_with_fzf (fzf_available : Bool) (stdout_text : String) (returncode : Int) :
    Option String :=
  if fzf_available = false then none
  else resolve_fzf_selection stdout_text returncode

/-! ## Selection dispatch (`main`, watchpick.py line 322)

`selected = _pick_with_fzf(files, config.root) or _pick_with_numbered_list(files, config.root)`

Python's `or` evaluates the right operand exactly when the left is falsy;
`_pick_with_fzf` returns either `None` (falsy) or a `Path` (truthy, since
even `Path("")` is the truthy `Path(".")`).  We record whether the
numbered-list picker was invoked. -/

/-- Outcome of the two-strategy selection dispatch: the overall result and
whether the numbered-list fallback was invoked. -/
structure SelectOutcome (α : Type) where
  result : Option α
  numbered_invoked : Bool
  deriving Repr, DecidableEq

/-- The `or`-dispatch on line 322 of watchpick.py. -/
def main_select {α : Type} (fzf_result : Option α) (numbered_result : Option α) :
    SelectOutcome α :=
  match fzf_result with
  | some p => ⟨some p, false⟩
  | none => ⟨numbered_result, true⟩

/-! ## Numbered-list fallback (`_pick_with_numbered_list`, lines 105–121) -/

/-- The error message classes printed by `_pick_with_numbered_list`:
`format` for `"error: please enter a number"` and `range hi` for
`"error: please enter 1..{hi}"`. -/
inductive PickErr where
  | format
  | range (hi : Nat)
  deriving Repr, DecidableEq

/-- One ASCII decimal digit. -/
def isDigitChar (c : Char) : Bool := '0' ≤ c && c ≤ '9'

/-- Value of an ASCII digit. -/
def digitVal (c : Char) : Nat := c.toNat - 48

/-- Digit-run tail of a Python integer literal: digits with single
underscores allowed between digits (`int("1_0") = 10`, `int("1_")` and
`int("1__0")` raise). -/
def pyDigitsGo : List Char → Nat → Option Nat
  | [], acc => some acc
  | c :: cs, acc =>
    if isDigitChar c then pyDigitsGo cs (acc * 10 + digitVal c)
    else if c = '_' then
      match cs with
      | [] => none
      | c2 :: cs2 =>
        if isDigitChar c2 then pyDigitsGo cs2 (acc * 10 + digitVal c2) else none
    else none

/-- Nonempty digit sequence (with internal underscores) of a Python int
literal. -/
def pyDigits : List Char → Option Nat
  | [] => none
  | c :: cs => if isDigitChar c then pyDigitsGo cs (digitVal c) else none

/-- Python `int(s)` on an already-stripped ASCII string: optional sign then
a digit sequence; anything else raises `ValueError` (modelled as `none`). -/
def pyParseInt (s : String) : Option Int :=
  match s.data with
  | '+' :: rest => (pyDigits rest).map (fun n => (n : Int))
  | '-' :: rest => (pyDigits rest).map (fun n => -(n : Int))
  | l => (pyDigits l).map (fun n => (n : Int))

/-- `_pick_with_numbered_list` (watchpick.py lines 105–121), with the
interactive read replaced by the line read from stdin, and the printed
error (if any) returned alongside the result:

```
shown = paths[:50]
... print numbered lines ...
choice = sys.stdin.readline().strip()
if not choice: return None
try: index = int(choice)
except ValueError: print("error: please enter a number"); return None
if index < 1 or index > len(shown):
    print(f"error: please enter 1..{len(shown)}"); return None
return shown[index - 1]
```
-/
def pick_with_numbered_list {α : Type} (paths : List α) (line : String) :
    Option α × Option PickErr :=
  let shown := paths.take 50
  let choice := pyStrip line
  if choice = "" then (none, none)
  else
    match pyParseInt choice with
    | none => (none, some PickErr.format)
    | some index =>
      if index < 1 ∨ index > (shown.length : Int) then
        (none, some (PickErr.range shown.length))
      else
        (shown[(index - 1).toNat]?, none)

/-! ## Baseline derivation (`_default_baseline_for`, lines 124–128, and the
dispatch in `main`, lines 327–333)

A filesystem path is modelled as its parent-directory components plus the
final component (`pathlib`'s `name`); `stem` and `suffix` follow CPython's
`PurePath` exactly: the suffix is `name[i:]` for `i = name.rfind('.')`
when `0 < i < len(name) - 1`, else empty. -/

/-- A pure path: parent directory components plus final component name. -/
structure PurePath where
  parent : List String
  name : String
  deriving Repr, DecidableEq

/-- Index of the last occurrence of a character, if any (`str.rfind`). -/
def rfindIdx (c : Char) : List Char → Option Nat
  | [] => none
  | x :: xs =>
    match rfindIdx c xs with
    | some i => some (i + 1)
    | none => if x = c then some 0 else none

/-- `PurePath.suffix`: the final dotted extension, with the leading dot,
or `""`. -/
def pathSuffix (name : String) : String :=
  match rfindIdx '.' name.data with
  | some i => if 0 < i ∧ i < name.data.length - 1 then String.mk (name.data.drop i) else ""
  | none => ""

/-- `PurePath.stem`: the final component without its suffix. -/
def pathStem (name : String) : String :=
  match rfindIdx '.' name.data with
  | some i => if 0 < i ∧ i < name.data.length - 1 then String.mk (name.data.take i) else name
  | none => name

/-- `_default_baseline_for` (watchpick.py lines 124–128):
`name = f"{file_path.stem}.baseline{file_path.suffix}"`, placed under
`baseline_root / name` when a root is given, else `file_path.with_name(name)`. -/
def default_baseline_for (file_path : PurePath) (baseline_root : Option (List String)) :
    PurePath :=
  let nm := pathStem file_path.name ++ ".baseline" ++ pathSuffix file_path.name
  match baseline_root with
  | some root => ⟨root, nm⟩
  | none => ⟨file_path.parent, nm⟩

/-- The baseline dispatch in `main` (watchpick.py lines 327–333):
suppressed (`--no-baseline`) wins, then an explicit override, then the
derived default. -/
def resolve_baseline (no_baseline : Bool) (baseline_override : Option PurePath)
    (baseline_root : Option (List String)) (file_path : PurePath) : Option PurePath :=
  if no_baseline then none
  else
    match baseline_override with
    | some o => some o
    | none => some (default_baseline_for file_path baseline_root)

/-- Render an absolute path for readability in concrete instances. -/
def renderAbs (p : PurePath) : String :=
  "/" ++ String.intercalate "/" (p.parent ++ [p.name])

/-! ## Watch argument vector (`_build_watch_argv`, lines 131–147) -/

/-- `_build_watch_argv`, translated statement by statement:

```
argv = ["npx", "tsx", str(watch_ts), str(file_path)]
argv += ["--type", type_]
if no_warn: argv.append("--no-warn")
if baseline_path is not None: argv += ["--baseline", str(baseline_path)]
argv += passthrough
return argv
```
-/
def build_watch_argv (watch_ts : String) (file_path : String) (type_ : String)
    (no_warn : Bool) (baseline_path : Option String) (passthrough : List String) :
    List String :=
  let argv : List String := ["npx", "tsx", watch_ts, file_path]
  let argv := argv ++ ["--type", type_]
  let argv := if no_warn then argv ++ ["--no-warn"] else argv
  let argv :=
    match baseline_path with
    | some b => argv ++ ["--baseline", b]
    | none => argv
  argv ++ passthrough

/-! ## Recursive file enumeration (`_iter_files`, lines 27–42)

`os.walk` visits a directory top-down; the code prunes `dirnames` in place:

```
dirnames[:] = [d for d in dirnames
               if not d.startswith(".") and d not in SKIP_DIR_NAMES
               and not d.endswith(".tmp")]
```

so pruned subtrees are never descended into.  A directory tree is modelled
as a list of entries: either a file with a name, or a subdirectory with a
name and its own entries.  The walk yields, for each directory visited,
its files (as directory-component chain below the root, plus the
filename) and then recurses into the kept subdirectories in order. -/

/-- `SKIP_DIR_NAMES` (watchpick.py line 13). -/
def SKIP_DIR_NAMES : List String := [".git", "node_modules", "dist", "build", "__pycache__"]

/-- A directory name is pruned when it starts with `"."`, is in
`SKIP_DIR_NAMES`, or ends with `".tmp"` (negation of the keep-condition on
lines 31–35); the prefix/suffix tests are taken on the character
sequences, as Python's `str.startswith`/`str.endswith` do. -/
def prunedDirName (d : String) : Bool :=
  List.isPrefixOf ".".data d.data || SKIP_DIR_NAMES.contains d ||
  List.isSuffixOf ".tmp".data d.data

/-- One entry of a directory tree. -/
inductive FsEntry where
  | file (name : String)
  | dir (name : String) (entries : List FsEntry)

mutual

/-- The recursive branch of `_iter_files`: visit a directory whose path
below the root is `pre` and whose entries are `entries`; yield its files,
then descend into the non-pruned subdirectories. -/
def walkFiles (pre : List String) (entries : List FsEntry) :
    List (List String × String) :=
  (entries.filterMap (fun e =>
    match e with
    | FsEntry.file n => some (pre, n)
    | FsEntry.dir _ _ => none)) ++ walkDirs pre entries
termination_by (sizeOf entries, 1)

/-- Descend, in order, into each subdirectory of the current directory
whose name survives the pruning filter. -/
def walkDirs (pre : List String) : List FsEntry → List (List String × String)
  | [] => []
  | FsEntry.file _ :: rest => walkDirs pre rest
  | FsEntry.dir n children :: rest =>
    (if prunedDirName n then [] else walkFiles (pre ++ [n]) children) ++ walkDirs pre rest
termination_by entries => (sizeOf entries, 0)

end

/-! ## Ranking and query filtering (`_sort_by_mtime_desc`, lines 51–52, and
the query filter in `main`, lines 315–321) -/

/-- A candidate file: parent directory components, filename, and
modification time.  (`st_mtime` is used only through its ordering, so it
is modelled as a natural number.) -/
structure FileEntry where
  parent : List String
  name : String
  mtime : Nat
  deriving Repr, DecidableEq

/-- `_sort_by_mtime_desc` (lines 51–52):
`sorted(paths, key=lambda p: p.stat().st_mtime, reverse=True)`.
CPython's `sorted` is a stable mergesort, and `reverse=True` performs the
stable sort under the reversed comparison; this is exactly `mergeSort`
with the total preorder `a` before `b` iff `b.mtime ≤ a.mtime`. -/
def sort_by_mtime_desc (paths : List FileEntry) : List FileEntry :=
  paths.mergeSort (fun a b => decide (b.mtime ≤ a.mtime))

/-- Python `str.casefold()`, on the ASCII fragment where it coincides with
per-character lowercasing. -/
def casefold (s : String) : String := String.mk (s.data.map Char.toLower)

/-- Python substring containment `needle in hay` on character lists. -/
def containsSub : List Char → List Char → Bool
  | needle, [] => needle.isEmpty
  | needle, c :: t => needle.isPrefixOf (c :: t) || containsSub needle t

/-- The per-file query predicate of line 317:
`config.query.casefold() in p.name.casefold()`. -/
def queryMatches (query : String) (p : FileEntry) : Bool :=
  containsSub (casefold query).data (casefold p.name).data

/-- The ranking-then-filtering fragment of `main` (lines 315–321):

```
files = _sort_by_mtime_desc(files)
if config.query:
    files = [p for p in files if config.query.casefold() in p.name.casefold()]
```
-/
def rank_then_query (query : String) (files : List FileEntry) : List FileEntry :=
  let ranked := sort_by_mtime_desc files
  if query = "" then ranked else ranked.filter (queryMatches query)

/-! ## Shell joining and re-tokenizing (`_shell_join`, lines 150–151)

`_shell_join` is `" ".join(shlex.quote(a) for a in argv)`.  `shlex.quote`
(CPython) returns `"''"` for the empty string, the string unchanged when
every character is in the safe class (ASCII alphanumerics, underscore,
and `@ % + = : , . - ` and the forward slash), and otherwise wraps the string in single quotes with every internal single
quote replaced by `'"'"'`.  The round-trip partner is `shlex.split` in
POSIX mode with `whitespace_split=True`: whitespace separates tokens,
single quotes protect everything until the matching quote, double quotes
protect everything except `\"` and `\\` escapes, and a backslash outside
quotes escapes the next character; an unterminated quote or trailing
escape raises `ValueError` (modelled as `none`). -/

/-- The safe character class of `shlex.quote`: the complement of
CPython's `_find_unsafe` regex (ASCII word characters plus
`@ % + = : , . - ` and the forward slash). -/
def safeChar (c : Char) : Bool :=
  (decide ('a' ≤ c) && decide (c ≤ 'z')) ||
  (decide ('A' ≤ c) && decide (c ≤ 'Z')) ||
  (decide ('0' ≤ c) && decide (c ≤ '9')) ||
  c == '_' || c == '@' || c == '%' || c == '+' || c == '=' ||
  c == ':' || c == ',' || c == '.' || c == '/' || c == '-'

/-- The replacement `s.replace("'", "'\"'\"'")` performed inside
`shlex.quote`, character by character. -/
def quoteEscChar (c : Char) : List Char :=
  if c = squoteChar then [squoteChar, dquoteChar, squoteChar, dquoteChar, squoteChar]
  else [c]

/-- `shlex.quote` on a character list. -/
def shlexQuoteL (s : List Char) : List Char :=
  if s = [] then [squoteChar, squoteChar]
  else if s.all safeChar then s
  else squoteChar :: (s.flatMap quoteEscChar ++ [squoteChar])

/-- `shlex.quote`. -/
def shlexQuote (s : String) : String := String.mk (shlexQuoteL s.data)

/-- `" ".join(...)`. -/
def joinSpace : List String → String
  | [] => ""
  | [a] => a
  | a :: b :: rest => a ++ " " ++ joinSpace (b :: rest)

/-- `_shell_join` (watchpick.py lines 150–151). -/
def shell_join (argv : List String) : String := joinSpace (argv.map shlexQuote)

/-- The whitespace class of the `shlex` tokenizer (`' \t\r\n'`). -/
def shWhitespace (c : Char) : Bool :=
  c == ' ' || c == '\t' || c == '\r' || c == '\n'

/-- State of the POSIX `shlex` tokenizer: in a word (token accumulated so
far, `none` when no token has started), after a backslash in a word,
inside single quotes, inside double quotes, or after a backslash inside
double quotes. -/
inductive ShState where
  | word (tok : Option (List Char))
  | esc (tok : List Char)
  | squote (tok : List Char)
  | dquote (tok : List Char)
  | dqesc (tok : List Char)
  deriving Repr, DecidableEq

/-- The POSIX `shlex` tokenizer with `whitespace_split=True`, one
character per step; `none` models the `ValueError` raised on an
unterminated quote or trailing escape. -/
def shlexSplitAux : List Char → ShState → Option (List (List Char))
  | [], ShState.word none => some []
  | [], ShState.word (some tok) => some [tok]
  | [], ShState.esc _ => none
  | [], ShState.squote _ => none
  | [], ShState.dquote _ => none
  | [], ShState.dqesc _ => none
  | c :: cs, ShState.word tok =>
    if shWhitespace c then
      match tok with
      | none => shlexSplitAux cs (ShState.word none)
      | some t => (shlexSplitAux cs (ShState.word none)).map (fun ts => t :: ts)
    else if c = squoteChar then shlexSplitAux cs (ShState.squote (tok.getD []))
    else if c = dquoteChar then shlexSplitAux cs (ShState.dquote (tok.getD []))
    else if c = bslashChar then shlexSplitAux cs (ShState.esc (tok.getD []))
    else shlexSplitAux cs (ShState.word (some (tok.getD [] ++ [c])))
  | c :: cs, ShState.esc tok => shlexSplitAux cs (ShState.word (some (tok ++ [c])))
  | c :: cs, ShState.squote tok =>
    if c = squoteChar then shlexSplitAux cs (ShState.word (some tok))
    else shlexSplitAux cs (ShState.squote (tok ++ [c]))
  | c :: cs, ShState.dquote tok =>
    if c = dquoteChar then shlexSplitAux cs (ShState.word (some tok))
    else if c = bslashChar then shlexSplitAux cs (ShState.dqesc tok)
    else shlexSplitAux cs (ShState.dquote (tok ++ [c]))
  | c :: cs, ShState.dqesc tok =>
    if c = dquoteChar ∨ c = bslashChar then shlexSplitAux cs (ShState.dquote (tok ++ [c]))
    else shlexSplitAux cs (ShState.dquote (tok ++ [bslashChar, c]))

/-- `shlex.split` in POSIX mode with whitespace splitting. -/
def shlexSplit (s : String) : Option (List String) :=
  (shlexSplitAux s.data (ShState.word none)).map (List.map String.mk)

/-- Quoted-argument join at the character level, mirroring `shell_join`. -/
def joinQL : List (List Char) → List Char
  | [] => []
  | [a] => shlexQuoteL a
  | a :: b :: rest => shlexQuoteL a ++ ' ' :: joinQL (b :: rest)

/-! # Theorems -/

/-! ## C4: the shell join/split round trip -/

/-- A safe character is neither tokenizer whitespace nor a quote nor a
backslash. -/
theorem safeChar_not_special {c : Char} (h : safeChar c = true) :
    shWhitespace c = false ∧ c ≠ squoteChar ∧ c ≠ dquoteChar ∧ c ≠ bslashChar := by
  refine ⟨?_, ?_, ?_, ?_⟩
  · cases hw : shWhitespace c
    · rfl
    · exfalso
      simp only [shWhitespace, Bool.or_eq_true, beq_iff_eq] at hw
      rcases hw with ((rfl | rfl) | rfl) | rfl <;> exact absurd h (by decide)
  · intro he
    subst he
    exact absurd h (by decide)
  · intro he
    subst he
    exact absurd h (by decide)
  · intro he
    subst he
    exact absurd h (by decide)

/-- Tokenizer step: a safe character extends the current word. -/
theorem splitAux_word_safe {c : Char} (h : safeChar c = true)
    (cs : List Char) (tok : Option (List Char)) :
    shlexSplitAux (c :: cs) (ShState.word tok) =
      shlexSplitAux cs (ShState.word (some (tok.getD [] ++ [c]))) := by
  obtain ⟨hws, hsq, hdq, hbs⟩ := safeChar_not_special h
  simp [shlexSplitAux, hws, hsq, hdq, hbs]

/-- Tokenizer step: a single quote in word state opens a single-quoted
section, starting the token if none was started. -/
theorem splitAux_word_sq (cs : List Char) (tok : Option (List Char)) :
    shlexSplitAux (squoteChar :: cs) (ShState.word tok) =
      shlexSplitAux cs (ShState.squote (tok.getD [])) := by
  have hws : shWhitespace squoteChar = false := by decide
  simp [shlexSplitAux, hws]

/-- Tokenizer step: a double quote in word state opens a double-quoted
section. -/
theorem splitAux_word_dq (cs : List Char) (tok : Option (List Char)) :
    shlexSplitAux (dquoteChar :: cs) (ShState.word tok) =
      shlexSplitAux cs (ShState.dquote (tok.getD [])) := by
  have hws : shWhitespace dquoteChar = false := by decide
  have hne : ¬(dquoteChar = squoteChar) := by decide
  simp [shlexSplitAux, hws, hne]

/-- Tokenizer step: a space after a started word emits the token. -/
theorem splitAux_word_space_some (cs : List Char) (t : List Char) :
    shlexSplitAux (' ' :: cs) (ShState.word (some t)) =
      (shlexSplitAux cs (ShState.word none)).map (fun ts => t :: ts) := by
  have hws : shWhitespace ' ' = true := by decide
  simp [shlexSplitAux, hws]

/-- Tokenizer step: the closing single quote returns to word state. -/
theorem splitAux_squote_close (cs : List Char) (tok : List Char) :
    shlexSplitAux (squoteChar :: cs) (ShState.squote tok) =
      shlexSplitAux cs (ShState.word (some tok)) := by
  simp [shlexSplitAux]

/-- Tokenizer step: any other character inside single quotes is taken
literally. -/
theorem splitAux_squote_char {c : Char} (h : c ≠ squoteChar)
    (cs : List Char) (tok : List Char) :
    shlexSplitAux (c :: cs) (ShState.squote tok) =
      shlexSplitAux cs (ShState.squote (tok ++ [c])) := by
  simp [shlexSplitAux, h]

/-- Tokenizer step: the closing double quote returns to word state. -/
theorem splitAux_dquote_close (cs : List Char) (tok : List Char) :
    shlexSplitAux (dquoteChar :: cs) (ShState.dquote tok) =
      shlexSplitAux cs (ShState.word (some tok)) := by
  simp [shlexSplitAux]

/-- Tokenizer step: a plain character inside double quotes is taken
literally. -/
theorem splitAux_dquote_char {c : Char} (h1 : c ≠ dquoteChar) (h2 : c ≠ bslashChar)
    (cs : List Char) (tok : List Char) :
    shlexSplitAux (c :: cs) (ShState.dquote tok) =
      shlexSplitAux cs (ShState.dquote (tok ++ [c])) := by
  simp [shlexSplitAux, h1, h2]

/-- A run of safe characters extends the current word character by
character. -/
theorem splitAux_safe_run (l : List Char) (hall : l.all safeChar = true) :
    ∀ (t cs : List Char),
      shlexSplitAux (l ++ cs) (ShState.word (some t)) =
        shlexSplitAux cs (ShState.word (some (t ++ l))) := by
  induction l with
  | nil =>
    intro t cs
    simp
  | cons c l' ih =>
    intro t cs
    simp only [List.all_cons, Bool.and_eq_true] at hall
    rw [List.cons_append, splitAux_word_safe hall.1]
    simp only [Option.getD_some]
    rw [ih hall.2 (t ++ [c]) cs]
    simp

/-- Consuming the single-quoted body produced by `shlex.quote`'s
replacement (`s.replace` of each single quote by the close-reopen gadget)
appends exactly `s` to the token and ends at the closing quote. -/
theorem splitAux_quoted_body (s : List Char) :
    ∀ (t cs : List Char),
      shlexSplitAux ((s.flatMap quoteEscChar) ++ squoteChar :: cs) (ShState.squote t) =
        shlexSplitAux cs (ShState.word (some (t ++ s))) := by
  induction s with
  | nil =>
    intro t cs
    rw [List.flatMap_nil, List.nil_append, splitAux_squote_close]
    simp
  | cons c s' ih =>
    intro t cs
    by_cases hc : c = squoteChar
    · subst hc
      have hgad : quoteEscChar squoteChar =
          [squoteChar, dquoteChar, squoteChar, dquoteChar, squoteChar] := by
        simp [quoteEscChar]
      rw [List.flatMap_cons, hgad]
      have hne1 : ¬(squoteChar = dquoteChar) := by decide
      have hne2 : ¬(squoteChar = bslashChar) := by decide
      simp only [List.cons_append, List.append_assoc, List.nil_append]
      rw [splitAux_squote_close, splitAux_word_dq,
        splitAux_dquote_char hne1 hne2, splitAux_dquote_close, splitAux_word_sq]
      simp only [Option.getD_some]
      rw [ih (t ++ [squoteChar]) cs]
      simp
    · rw [List.flatMap_cons]
      have hq : quoteEscChar c = [c] := by simp [quoteEscChar, hc]
      rw [hq]
      simp only [List.cons_append, List.singleton_append, List.append_assoc,
        List.nil_append]
      rw [splitAux_squote_char hc]
      rw [ih (t ++ [c]) cs]
      simp

/-- Consuming one quoted argument from word state leaves the tokenizer in
word state with exactly that argument as the started token. -/
theorem splitAux_quoted (s cs : List Char) :
    shlexSplitAux (shlexQuoteL s ++ cs) (ShState.word none) =
      shlexSplitAux cs (ShState.word (some s)) := by
  by_cases hnil : s = []
  · subst hnil
    have hq : shlexQuoteL [] = [squoteChar, squoteChar] := rfl
    rw [hq, List.cons_append, List.singleton_append, splitAux_word_sq,
      splitAux_squote_close]
    rfl
  · by_cases hall : s.all safeChar = true
    · rw [shlexQuoteL, if_neg hnil, if_pos hall]
      cases s with
      | nil => exact absurd rfl hnil
      | cons c s' =>
        simp only [List.all_cons, Bool.and_eq_true] at hall
        rw [List.cons_append, splitAux_word_safe hall.1]
        simp only [Option.getD_none, List.nil_append]
        rw [splitAux_safe_run s' hall.2 [c] cs]
        rfl
    · rw [shlexQuoteL, if_neg hnil, if_neg hall]
      rw [List.cons_append, splitAux_word_sq]
      simp only [Option.getD_none]
      rw [List.append_assoc, List.singleton_append]
      rw [splitAux_quoted_body s [] cs]
      rfl

/-- Tokenizing the space-joined quoted arguments recovers exactly the
argument list. -/
theorem splitAux_joinQL : ∀ (argv : List (List Char)),
    shlexSplitAux (joinQL argv) (ShState.word none) = some argv := by
  intro argv
  match argv with
  | [] => rfl
  | [a] =>
    rw [joinQL]
    have h := splitAux_quoted a []
    rw [List.append_nil] at h
    rw [h]
    rfl
  | a :: b :: rest =>
    rw [joinQL, splitAux_quoted, splitAux_word_space_some]
    rw [splitAux_joinQL (b :: rest)]
    rfl

/-- `shell_join` at the character level. -/
theorem shell_join_data (argv : List String) :
    (shell_join argv).data = joinQL (argv.map String.data) := by
  rw [shell_join]
  match argv with
  | [] => rfl
  | [a] => rfl
  | a :: b :: rest =>
    show (shlexQuote a ++ " " ++ joinSpace ((b :: rest).map shlexQuote)).data = _
    rw [String.data_append, String.data_append]
    have ih := shell_join_data (b :: rest)
    rw [shell_join] at ih
    rw [ih]
    simp [List.append_assoc, joinQL, shlexQuote]

/-- C4: for every argument vector — including arguments containing
spaces, quotes, empty strings, or shell metacharacters — re-tokenizing
the shell-joined string with the POSIX shell tokenizer yields exactly the
original vector; illustrated on a concrete vector containing a space, an
embedded single quote, an empty argument and a flag-like argument. -/
theorem shell_join_roundtrip (argv : List String) :
    shlexSplit (shell_join argv) = some argv ∧
    shlexSplit (shell_join
      ["a b", String.mk ['i', 't', squoteChar, 's'], "", "-rf", "$HOME", "\t"]) =
      some ["a b", String.mk ['i', 't', squoteChar, 's'], "", "-rf", "$HOME", "\t"] := by
  constructor
  · rw [shlexSplit, shell_join_data, splitAux_joinQL]
    have h : (argv.map String.data).map String.mk = argv := by
      rw [List.map_map]
      exact List.map_id'' (fun a => rfl) argv
    show some ((argv.map String.data).map String.mk) = some argv
    rw [h]
  · decide


/-! ## C1: fzf selection extraction vs. exit status -/

/-- C1: the claim states the external-picker selection is determined solely
by the emitted output text, the exit status being ignored; in particular,
non-empty output `"/tmp/example.txt"` with a non-zero exit code should
resolve to `/tmp/example.txt` (as the repository's own test
`test_returns_selection_even_on_nonzero_exit` also asserts).  The code
instead checks `proc.returncode != 0` first (watchpick.py lines 90–91)
and discards the output: at that exact input it returns no selection,
while at exit code `0` the very same output is accepted, empty output
yields no selection, and tabbed output yields the part after the first
tab. -/
theorem fzf_selection_consults_exit_status :
    resolve_fzf_selection "/tmp/example.txt" 1 = none ∧
    resolve_fzf_selection "/tmp/example.txt" 0 = some "/tmp/example.txt" ∧
    resolve_fzf_selection "" 0 = none ∧
    resolve_fzf_selection "display\t/tmp/x.txt" 0 = some "/tmp/x.txt" := by
  refine ⟨by decide, by decide, by decide, by decide⟩

/-! ## C2: strategy dispatch on cancellation -/

/-- C2 counterexample: with the fzf executable available and the user
cancelling inside it (empty output, exit code 0), `_pick_with_fzf`
returns `None`, and the `or` on line 322 then *does* invoke the
numbered-list fallback, whose answer becomes the overall selection —
contradicting the claim that cancellation inside an available external
picker is terminal and the fallback runs only when the tool is absent. -/
theorem cancel_in_fzf_still_falls_back :
    pick_with_fzf true "" 0 = none ∧
    (main_select (pick_with_fzf true "" 0) (some "/tmp/pick.txt")).numbered_invoked = true ∧
    (main_select (pick_with_fzf true "" 0) (some "/tmp/pick.txt")).result =
      some "/tmp/pick.txt" := by
  refine ⟨by decide, by decide, by decide⟩

/-- C2 amended: the numbered-list fallback is invoked exactly when
`_pick_with_fzf` returns `None` — which happens both when the executable
is absent and when the user cancels inside an available fzf — and in that
case the fallback's result is the overall selection; when fzf yields a
path, that path is the selection and the fallback is not invoked. -/
theorem fallback_iff_fzf_returns_none {α : Type}
    (fzf_result numbered_result : Option α) :
    (∀ (out : String) (rc : Int), pick_with_fzf false out rc = none) ∧
    (fzf_result = none →
      main_select fzf_result numbered_result = ⟨numbered_result, true⟩) ∧
    (∀ p : α, fzf_result = some p →
      main_select fzf_result numbered_result = ⟨some p, false⟩) := by
  refine ⟨fun _ _ => rfl, fun h => by rw [h]; rfl, fun p h => by rw [h]; rfl⟩

/-- Witness for C2's amended theorem at a concrete instance. -/
theorem fallback_iff_fzf_returns_none_witness :
    main_select (none : Option String) (some "/tmp/pick.txt") =
      ⟨some "/tmp/pick.txt", true⟩ :=
  (fallback_iff_fzf_returns_none none (some "/tmp/pick.txt")).2.1 rfl

/-! ## C3: the watch argument vector -/

/-- C3: the built argument vector is exactly, in order: the runner
invocation tokens `npx tsx`, the watch-tool path, the file path,
`--type` and the type value, `--no-warn` iff the flag is set,
`--baseline` and the baseline path iff a baseline is present, then all
pass-through arguments verbatim in their original order. -/
theorem watch_argv_exact_order (watch_ts file_path type_ : String) (no_warn : Bool)
    (baseline_path : Option String) (passthrough : List String) :
    build_watch_argv watch_ts file_path type_ no_warn baseline_path passthrough =
      ["npx", "tsx", watch_ts, file_path, "--type", type_] ++
      (if no_warn then ["--no-warn"] else []) ++
      (match baseline_path with
        | some b => ["--baseline", b]
        | none => []) ++
      passthrough := by
  cases no_warn <;> cases baseline_path <;> simp [build_watch_argv]

/-! ## C5 and C10: baseline derivation -/

/-- C5: baseline resolution follows the three policies — suppression
yields no baseline, an explicit override is returned as-is, and the
derived default is named `<stem>.baseline<suffix>`, placed under the
baseline root when one is given and as a sibling of the file otherwise;
in particular `/a/b/report.txt` derives `/a/b/report.baseline.txt`
without a root and `/baselines/report.baseline.txt` with root
`/baselines`. -/
theorem baseline_three_policies (p : PurePath) (root : List String) (q : PurePath)
    (ov : Option PurePath) (rt : Option (List String)) :
    resolve_baseline true ov rt p = none ∧
    resolve_baseline false (some q) rt p = some q ∧
    resolve_baseline false none (some root) p =
      some ⟨root, pathStem p.name ++ ".baseline" ++ pathSuffix p.name⟩ ∧
    resolve_baseline false none none p =
      some ⟨p.parent, pathStem p.name ++ ".baseline" ++ pathSuffix p.name⟩ ∧
    resolve_baseline false none none ⟨["a", "b"], "report.txt"⟩ =
      some ⟨["a", "b"], "report.baseline.txt"⟩ ∧
    resolve_baseline false none (some ["baselines"]) ⟨["a", "b"], "report.txt"⟩ =
      some ⟨["baselines"], "report.baseline.txt"⟩ ∧
    renderAbs ⟨["a", "b"], "report.baseline.txt"⟩ = "/a/b/report.baseline.txt" ∧
    renderAbs ⟨["baselines"], "report.baseline.txt"⟩ = "/baselines/report.baseline.txt" := by
  refine ⟨rfl, rfl, rfl, rfl, by decide, by decide, by decide, by decide⟩

/-- When the suffix is empty, the stem is the whole name (both sides of
CPython's `PurePath` branch on `0 < i < len(name) - 1`). -/
theorem pathStem_of_suffix_empty {n : String} (h : pathSuffix n = "") :
    pathStem n = n := by
  unfold pathSuffix at h
  unfold pathStem
  cases hr : rfindIdx '.' n.data with
  | none => rfl
  | some i =>
    rw [hr] at h
    dsimp only at h ⊢
    by_cases hc : 0 < i ∧ i < n.data.length - 1
    · exfalso
      rw [if_pos hc] at h
      have hdata : (n.data.drop i) = [] := congrArg String.data h
      have hlen := congrArg List.length hdata
      rw [List.length_drop] at hlen
      simp only [List.length_nil] at hlen
      omega
    · rw [if_neg hc]

/-- C10: for a file whose final component has no extension, the derived
baseline name is the name with `".baseline"` appended and nothing after
it, as a sibling when no baseline root is given and under the root
otherwise. -/
theorem baseline_for_extensionless_name (p : PurePath) (root : List String)
    (h : pathSuffix p.name = "") :
    default_baseline_for p none = ⟨p.parent, p.name ++ ".baseline"⟩ ∧
    default_baseline_for p (some root) = ⟨root, p.name ++ ".baseline"⟩ := by
  have hstem := pathStem_of_suffix_empty h
  constructor <;>
    simp [default_baseline_for, h, hstem, String.append_empty]

/-! ## C6: recursive enumeration never enters pruned subtrees -/

/-- Any file yielded by the walk has no pruned name anywhere in its
directory chain (provided the chain accumulated so far is clean); proved
by the walk's own induction principle, jointly for `walkFiles` and
`walkDirs`. -/
theorem walk_files_avoid_pruned :
    ∀ (pre : List String) (entries : List FsEntry),
      (∀ d ∈ pre, prunedDirName d = false) →
      ∀ x ∈ walkFiles pre entries, ∀ d ∈ x.1, prunedDirName d = false := by
  refine walkFiles.induct
    (fun pre entries => (∀ d ∈ pre, prunedDirName d = false) →
      ∀ x ∈ walkFiles pre entries, ∀ d ∈ x.1, prunedDirName d = false)
    (fun pre entries => (∀ d ∈ pre, prunedDirName d = false) →
      ∀ x ∈ walkDirs pre entries, ∀ d ∈ x.1, prunedDirName d = false)
    ?_ ?_ ?_ ?_
  · intro pre entries ih hpre x hx
    rw [walkFiles] at hx
    rcases List.mem_append.1 hx with h | h
    · obtain ⟨e, he, hmap⟩ := List.mem_filterMap.1 h
      cases e with
      | file n =>
        dsimp only at hmap
        cases hmap
        intro d hd
        exact hpre d hd
      | dir m cs =>
        dsimp only at hmap
        cases hmap
    · exact ih hpre x h
  · intro pre hpre x hx
    rw [walkDirs] at hx
    cases hx
  · intro pre name rest ih hpre x hx
    rw [walkDirs] at hx
    exact ih hpre x hx
  · intro pre n children rest ih1 ih2 hpre x hx
    rw [walkDirs] at hx
    rcases List.mem_append.1 hx with h | h
    · by_cases hp : prunedDirName n = true
      · rw [if_pos hp] at h
        cases h
      · rw [if_neg hp] at h
        refine ih1 ?_ x h
        intro d hd
        rcases List.mem_append.1 hd with h1 | h1
        · exact hpre d h1
        · have hdn : d = n := by simpa using h1
          subst hdn
          simpa using hp
    · exact ih2 hpre x h

/-- C6: for every directory tree, the recursive enumeration never yields a
file lying anywhere below a subdirectory whose name starts with `"."`, is
in the fixed skip-set, or ends with `".tmp"`; in the concrete tree below,
the files nested inside `.git`, `node_modules` (even two levels down) and
`work.tmp` are all absent from the result, while top-level and `src`
files survive. -/
theorem recursive_walk_never_in_pruned (entries : List FsEntry) :
    (∀ x ∈ walkFiles [] entries, ∀ d ∈ x.1, prunedDirName d = false) ∧
    walkFiles []
      [FsEntry.dir ".git" [FsEntry.file "deep.txt"],
       FsEntry.dir "node_modules" [FsEntry.dir "pkg" [FsEntry.file "a.txt"]],
       FsEntry.dir "work.tmp" [FsEntry.file "b.txt"],
       FsEntry.dir "src" [FsEntry.file "keep.txt"],
       FsEntry.file "top.txt"] =
      [([], "top.txt"), (["src"], "keep.txt")] := by
  constructor
  · intro x hx
    exact walk_files_avoid_pruned [] entries (by intro d hd; cases hd) x hx
  · have h1 : prunedDirName ".git" = true := by rfl
    have h2 : prunedDirName "node_modules" = true := by rfl
    have h3 : prunedDirName "work.tmp" = true := by rfl
    have h4 : prunedDirName "src" = false := by rfl
    simp [walkFiles, walkDirs, h1, h2, h3, h4]

/-- Witness for C6 at a concrete tree and file: the directory chain of a
yielded file has no pruned component. -/
theorem recursive_walk_never_in_pruned_witness :
    prunedDirName "sub" = false := by
  have h := (recursive_walk_never_in_pruned
    [FsEntry.dir "sub" [FsEntry.file "a.txt"]]).1 (["sub"], "a.txt")
  refine h ?_ "sub" (by simp)
  have hev : walkFiles [] [FsEntry.dir "sub" [FsEntry.file "a.txt"]] =
      [(["sub"], "a.txt")] := by
    have h4 : prunedDirName "sub" = false := by rfl
    simp [walkFiles, walkDirs, h4]
  rw [hev]
  simp

/-! ## C8: numbered-list fallback input handling -/

/-- C8: the numbered-list fallback classifies the (stripped) input line:
empty input yields no selection and no error message; non-numeric input
yields no selection with the number-format error; a number outside
`1..len(shown)` (with `shown` the at-most-50 displayed candidates) yields
no selection with the range error naming that bound; a valid number
yields the candidate at that 1-based index of the displayed list. -/
theorem numbered_list_input_classes {α : Type} (paths : List α) (line : String) :
    (pyStrip line = "" → pick_with_numbered_list paths line = (none, none)) ∧
    (pyStrip line ≠ "" → pyParseInt (pyStrip line) = none →
      pick_with_numbered_list paths line = (none, some PickErr.format)) ∧
    (∀ i : Int, pyParseInt (pyStrip line) = some i →
      (i < 1 ∨ i > ((paths.take 50).length : Int)) →
      pick_with_numbered_list paths line =
        (none, some (PickErr.range (paths.take 50).length))) ∧
    (∀ i : Int, pyParseInt (pyStrip line) = some i →
      1 ≤ i → i ≤ ((paths.take 50).length : Int) →
      pick_with_numbered_list paths line = ((paths.take 50)[(i - 1).toNat]?, none) ∧
      ((paths.take 50)[(i - 1).toNat]?).isSome = true) := by
  have hempty : pyParseInt "" = none := rfl
  refine ⟨?_, ?_, ?_, ?_⟩
  · intro h
    simp [pick_with_numbered_list, h]
  · intro h hp
    simp [pick_with_numbered_list, h, hp]
  · intro i hp hr
    have hne : pyStrip line ≠ "" := by
      intro he
      rw [he, hempty] at hp
      cases hp
    simp only [pick_with_numbered_list]
    rw [if_neg hne, hp]
    dsimp only
    rw [if_pos hr]
  · intro i hp h1 h2
    have hne : pyStrip line ≠ "" := by
      intro he
      rw [he, hempty] at hp
      cases hp
    have hcond : ¬(i < 1 ∨ i > ((paths.take 50).length : Int)) := by omega
    have hlt : (i - 1).toNat < (paths.take 50).length := by omega
    constructor
    · simp only [pick_with_numbered_list]
      rw [if_neg hne, hp]
      dsimp only
      rw [if_neg hcond]
    · rw [List.getElem?_eq_getElem hlt]
      rfl

/-- Witness for C8, exercising every input class with 3 candidates:
`"2"` selects the second, `"0"` and `"4"` report the range `1..3`,
`"abc"` reports the format error, and empty input is a silent
cancellation. -/
theorem numbered_list_input_classes_witness :
    pick_with_numbered_list ["a", "b", "c"] "2" = (some "b", none) ∧
    pick_with_numbered_list ["a", "b", "c"] "0" = (none, some (PickErr.range 3)) ∧
    pick_with_numbered_list ["a", "b", "c"] "4" = (none, some (PickErr.range 3)) ∧
    pick_with_numbered_list ["a", "b", "c"] "abc" = (none, some PickErr.format) ∧
    pick_with_numbered_list ["a", "b", "c"] "" = (none, none) := by
  refine ⟨?_, ?_, ?_, ?_, ?_⟩
  · exact ((numbered_list_input_classes ["a", "b", "c"] "2").2.2.2 2 (by decide)
      (by decide) (by decide)).1.trans (by decide)
  · exact ((numbered_list_input_classes ["a", "b", "c"] "0").2.2.1 0 (by decide)
      (by decide)).trans (by decide)
  · exact ((numbered_list_input_classes ["a", "b", "c"] "4").2.2.1 4 (by decide)
      (by decide)).trans (by decide)
  · exact (numbered_list_input_classes ["a", "b", "c"] "abc").2.1 (by decide) (by decide)
  · exact (numbered_list_input_classes ["a", "b", "c"] "").1 (by decide)

/-! ## C7: ranking is descending in mtime and stable -/

/-- Transitivity of the descending-mtime comparator used by
`_sort_by_mtime_desc`. -/
theorem mtime_le_trans (a b c : FileEntry) :
    decide (b.mtime ≤ a.mtime) = true → decide (c.mtime ≤ b.mtime) = true →
    decide (c.mtime ≤ a.mtime) = true := by
  simp only [decide_eq_true_eq]
  omega

/-- Totality of the descending-mtime comparator. -/
theorem mtime_le_total (a b : FileEntry) :
    (decide (b.mtime ≤ a.mtime) || decide (a.mtime ≤ b.mtime)) = true := by
  rcases Nat.le_total b.mtime a.mtime with h | h <;> simp [h]

/-- C7: ranking returns a permutation of the candidates whose modification
times are monotonically non-increasing, and the sort is stable: any two
candidates with equal modification times that appear in a given order in
the input appear in that same order in the output. -/
theorem ranking_desc_and_stable (paths : List FileEntry) :
    (sort_by_mtime_desc paths).Pairwise (fun a b => b.mtime ≤ a.mtime) ∧
    (sort_by_mtime_desc paths).Perm paths ∧
    (∀ a b : FileEntry, a.mtime = b.mtime → [a, b].Sublist paths →
      [a, b].Sublist (sort_by_mtime_desc paths)) := by
  unfold sort_by_mtime_desc
  refine ⟨?_, ?_, ?_⟩
  · have h := @List.sorted_mergeSort FileEntry
      (fun a b : FileEntry => decide (b.mtime ≤ a.mtime))
      mtime_le_trans mtime_le_total paths
    exact h.imp (fun hab => by simpa using hab)
  · exact List.mergeSort_perm paths _
  · intro a b hab hsub
    exact List.pair_sublist_mergeSort mtime_le_trans mtime_le_total
      (by simp [hab]) hsub

/-- Witness for C7: two candidates with equal modification times keep
their original order through the sort. -/
theorem ranking_desc_and_stable_witness :
    [(⟨[], "a", 5⟩ : FileEntry), ⟨[], "b", 5⟩].Sublist
      (sort_by_mtime_desc [⟨[], "a", 5⟩, ⟨[], "b", 5⟩]) :=
  (ranking_desc_and_stable [⟨[], "a", 5⟩, ⟨[], "b", 5⟩]).2.2 _ _ rfl
    (List.Sublist.refl _)

/-! ## C9: query filter is a case-insensitive substring test on the
filename only, applied after ranking -/

/-- `containsSub` is exactly substring containment. -/
theorem containsSub_iff (n hay : List Char) :
    containsSub n hay = true ↔ ∃ pre post : List Char, hay = pre ++ n ++ post := by
  induction hay with
  | nil =>
    constructor
    · intro h
      have hn : n = [] := by simpa [containsSub, List.isEmpty_iff] using h
      exact ⟨[], [], by simp [hn]⟩
    · rintro ⟨pre, post, h⟩
      have hlen := congrArg List.length h
      simp only [List.length_nil, List.length_append] at hlen
      have hn : n = [] := List.eq_nil_of_length_eq_zero (by omega)
      simp [containsSub, List.isEmpty_iff, hn]
  | cons c t ih =>
    simp only [containsSub, Bool.or_eq_true, ih, List.isPrefixOf_iff_prefix]
    constructor
    · rintro (hpre | ⟨pre, post, h⟩)
      · obtain ⟨post, hpost⟩ := hpre
        exact ⟨[], post, by simp [hpost]⟩
      · exact ⟨c :: pre, post, by simp [h]⟩
    · rintro ⟨pre, post, h⟩
      cases pre with
      | nil =>
        left
        exact ⟨post, by simpa using h.symm⟩
      | cons p ps =>
        right
        simp only [List.cons_append, List.cons.injEq] at h
        exact ⟨ps, post, h.2⟩

/-- C9: with a non-empty query, the pipeline keeps exactly the ranked
candidates whose filename (not any parent directory component) contains
the query as a case-insensitive substring, and the survivors keep their
ranked order (the result is a sublist of the ranked list). -/
theorem query_filter_name_substring (query : String) (files : List FileEntry)
    (hq : query ≠ "") :
    rank_then_query query files =
      (sort_by_mtime_desc files).filter (queryMatches query) ∧
    (∀ x : FileEntry, x ∈ rank_then_query query files ↔
      x ∈ sort_by_mtime_desc files ∧ queryMatches query x = true) ∧
    (rank_then_query query files).Sublist (sort_by_mtime_desc files) ∧
    (∀ p₁ p₂ : FileEntry, p₁.name = p₂.name →
      queryMatches query p₁ = queryMatches query p₂) ∧
    (∀ p : FileEntry, queryMatches query p = true ↔
      ∃ pre post : List Char,
        (casefold p.name).data = pre ++ (casefold query).data ++ post) := by
  have hrw : rank_then_query query files =
      (sort_by_mtime_desc files).filter (queryMatches query) := by
    simp [rank_then_query, hq]
  refine ⟨hrw, ?_, ?_, ?_, ?_⟩
  · intro x
    rw [hrw]
    exact List.mem_filter
  · rw [hrw]
    exact List.filter_sublist _
  · intro p₁ p₂ h
    simp [queryMatches, h]
  · intro p
    exact containsSub_iff _ _

/-- Witness for C9: the predicate depends only on the filename (via the
theorem), a query occurring only in a parent directory name does not
match, and matching is case-insensitive. -/
theorem query_filter_name_substring_witness :
    queryMatches "abc" ⟨["abc"], "z.txt", 2⟩ = queryMatches "abc" ⟨["sub"], "z.txt", 9⟩ ∧
    queryMatches "abc" ⟨["abc"], "z.txt", 2⟩ = false ∧
    queryMatches "abc" ⟨[], "xAbCy.txt", 1⟩ = true := by
  refine ⟨(query_filter_name_substring "abc" [] (by decide)).2.2.2.1 _ _ rfl,
    by decide, by decide⟩

/-- Witness for C10 at the concrete file `/a/b/report`: the derived
baseline is `/a/b/report.baseline` (no trailing dot), or
`/baselines/report.baseline` under root `/baselines`. -/
theorem baseline_for_extensionless_name_witness :
    default_baseline_for ⟨["a", "b"], "report"⟩ none =
      ⟨["a", "b"], "report.baseline"⟩ ∧
    default_baseline_for ⟨["a", "b"], "report"⟩ (some ["baselines"]) =
      ⟨["baselines"], "report.baseline"⟩ := by
  have h := baseline_for_extensionless_name ⟨["a", "b"], "report"⟩ ["baselines"] (by decide)
  exact ⟨h.1.trans (by decide), h.2.trans (by decide)⟩

end Watchpick
